import Mathlib

/-
  Verification development for the Measure Competition & Financial Metrics
  Engine of `run_web.py` (class Engine).  Numeric leaf quantities are modelled
  as rationals (the Python code computes with IEEE floats; the algorithms are
  exact-arithmetic algorithms and are embedded over ℚ, with an explicit
  `PyFloat` type where the code itself branches on non-finiteness).
-/

namespace RunWeb

/- ------------------------------------------------------------------ -/
/- Engine.compete_adj (run_web.py lines 3020-3292): the per-year dual  -/
/- write that scales a measure's master totals and the retained        -/
/- contributing-microsegment record by the competed market share.      -/
/- ------------------------------------------------------------------ -/

/-- Status of a stock/energy/carbon/cost quantity: "total" or "competed". -/
inductive MStatus where
  | total
  | competed
deriving DecidableEq

/-- Case of a quantity: "baseline" or "efficient". -/
inductive MCase where
  | baseline
  | efficient
deriving DecidableEq

/-- The five quantities adjusted per (status, case) in `compete_adj`:
the entries of `mast_list_base`/`mast_list_eff` and `adj_list_base`/
`adj_list_eff` built in `compete_adj_dicts` (lines 2926-3006). -/
inductive MRes where
  | costStock
  | costEnergy
  | costCarbon
  | energy
  | carbon
deriving DecidableEq

/-- The state touched by `compete_adj` for one measure, one contributing
microsegment key and one year: master values (`mast`), contributing values
(`adj`), the measure-captured stock entries, and the climate/building/end-use
breakout entries for baseline/efficient/savings energy. -/
structure CompeteState where
  mast : MRes → MStatus → MCase → ℚ
  adj : MRes → MStatus → MCase → ℚ
  mastStockMeasure : MStatus → ℚ
  adjStockMeasure : MStatus → ℚ
  mastBrkBase : ℚ
  mastBrkEff : ℚ
  mastBrkSave : ℚ

/-- Selector: `compete_adj` applies `adj_frac_tot` to "total" entries and
`adj_frac_comp` to "competed" entries. -/
def statusFrac (adjFracTot adjFracComp : ℚ) : MStatus → ℚ
  | .total => adjFracTot
  | .competed => adjFracComp

/-- Embedding of the adjustment writes of `Engine.compete_adj`
(run_web.py lines 3225-3292): for every resource, status and case,
`mast_new = mast_old - adj_old * (1 - share)` and `adj_new = adj_old * share`;
the same pattern for the measure-captured stock entries, and the breakout
entries are reduced by the same removed energy amounts. -/
def competeAdj (st : CompeteState) (adjFracTot adjFracComp : ℚ) : CompeteState where
  mast := fun r s c =>
    st.mast r s c - st.adj r s c * (1 - statusFrac adjFracTot adjFracComp s)
  adj := fun r s c => st.adj r s c * statusFrac adjFracTot adjFracComp s
  mastStockMeasure := fun s =>
    st.mastStockMeasure s - st.adjStockMeasure s * (1 - statusFrac adjFracTot adjFracComp s)
  adjStockMeasure := fun s => st.adjStockMeasure s * statusFrac adjFracTot adjFracComp s
  mastBrkBase := st.mastBrkBase - st.adj .energy .total .baseline * (1 - adjFracTot)
  mastBrkEff := st.mastBrkEff - st.adj .energy .total .efficient * (1 - adjFracTot)
  mastBrkSave := st.mastBrkSave -
    (st.adj .energy .total .baseline - st.adj .energy .total .efficient) * (1 - adjFracTot)

/- ------------------------------------------------------------------ -/
/- Engine.payback (run_web.py lines 1185-1240).                       -/
/- ------------------------------------------------------------------ -/

/-- The running cumulative cash-flow list built by the loop in
`Engine.payback` (lines 1213-1220): entry `i` is the sum of the first
`i + 1` cash flows. -/
def cumulativeSums : ℚ → List ℚ → List ℚ
  | _, [] => []
  | acc, c :: rest => (acc + c) :: cumulativeSums (acc + c) rest

/-- The cash-flow extension of `Engine.payback` line 1203: the flows after
the initial investment, with the terminal flow of the original sequence
repeated out to a 100-year cap (Python's `list * negative` is empty, matching
truncated subtraction). -/
def extendCfs (rest : List ℚ) (investment : ℚ) : List ℚ :=
  rest ++ List.replicate (100 - rest.length) (rest.getLastD investment)

/-- Embedding of `Engine.payback` (lines 1185-1240).  `none` models the
IndexError Python would raise on an empty cash-flow input. -/
def payback (cashflows : List ℚ) : Option ℚ :=
  match cashflows with
  | [] => none
  | investment :: rest =>
    let cfs := extendCfs rest investment
    if 0 ≤ investment then some 0
    else
      let inv := |investment|
      let cum := cumulativeSums 0 cfs
      let years := cum.countP (fun t => decide (t < inv))
      if years < cfs.length then
        let a : ℚ := years
        let b := if years = 0 then inv else inv - cum.getD (years - 1) 0
        let c := if years = 0 then cum.getD 0 0 else cum.getD years 0 - cum.getD (years - 1) 0
        some (a + b / c)
      else some 999

/- ------------------------------------------------------------------ -/
/- Lifetime floor (run_web.py lines 612-626 in calc_savings_metrics    -/
/- and 984-987 in metric_update).                                      -/
/- ------------------------------------------------------------------ -/

/-- Python truthiness test `any(arr)` over a numeric array: true iff some
element is nonzero. -/
def pyTruthyAny (l : List ℚ) : Bool := l.any (fun x => decide (x ≠ 0))

/-- Embedding of the array branch of the lifetime floor (lines 616-617 and
623-624): the guard written in the source is `any(life) < 1`, which compares
the boolean `any(life)` (as the integer 0 or 1) with 1; when that guard is
taken, the clamp line indexes with `numpy.where(life) < 1`, a comparison of a
tuple with an integer, which raises TypeError (modelled as `none`).  When the
guard is not taken the array passes through with no clamping. -/
def lifeClampArray (life : List ℚ) : Option (List ℚ) :=
  if (if pyTruthyAny life then (1 : ℤ) else 0) < 1 then none
  else some life

/-- Embedding of the scalar branch of the lifetime floor (lines 618-619 and
625-626, and line 986-987 of metric_update): values below 1 become 1. -/
def lifeClampScalar (life : ℚ) : ℚ := if life < 1 then 1 else life

/- ------------------------------------------------------------------ -/
/- Non-finite sentinel handling in Engine.metric_update                -/
/- (run_web.py lines 1099-1121 and 1132-1152).                         -/
/- ------------------------------------------------------------------ -/

/-- An IEEE-754 double as observed by `math.isfinite`: a finite value
(modelled as an exact rational) or one of the non-finite values. -/
inductive PyFloat where
  | fin : ℚ → PyFloat
  | posInf
  | negInf
  | nan
deriving DecidableEq

/-- Embedding of `math.isfinite`. -/
def PyFloat.isFinite : PyFloat → Bool
  | .fin _ => true
  | _ => false

/-- The seven per-tier NPV results of `numpy.npv` for the stock, energy and
carbon total cash flows (the values computed inside the loop at lines
1100-1108; `numpy.npv` is an external library routine whose float result may
be non-finite, so its per-tier results are the inputs of the guard). -/
structure ComNPVs where
  s : Fin 7 → PyFloat
  e : Fin 7 → PyFloat
  c : Fin 7 → PyFloat

/-- The commercial unit-cost output: either the three filled seven-tier
tables, or the scalar sentinel 999 substituted for all three outputs. -/
inductive ComUnitCosts where
  | table : (Fin 7 → PyFloat) → (Fin 7 → PyFloat) → (Fin 7 → PyFloat) → ComUnitCosts
  | sentinel : ComUnitCosts

/-- Embedding of the try/except block at lines 1099-1121: the loop fills the
three rate tables and raises ValueError as soon as any entry is non-finite,
in which case all three outputs are replaced by the sentinel 999. -/
def comUnitCostGuard (v : ComNPVs) : ComUnitCosts :=
  if ∀ ind : Fin 7,
      (v.s ind).isFinite = true ∧ (v.e ind).isFinite = true ∧ (v.c ind).isFinite = true
  then .table v.s v.e v.c
  else .sentinel

/-- Every value held in a commercial unit-cost output is finite (the
sentinel stands for the finite number 999 in all tiers). -/
def ComUnitCosts.allFinite : ComUnitCosts → Prop
  | .table s e c => ∀ ind, (s ind).isFinite = true ∧ (e ind).isFinite = true ∧
      (c ind).isFinite = true
  | .sentinel => True

/-- Embedding of the IRR guard at lines 1132-1137 (and 1143-1148): the result
of `numpy.irr` is either an exception (`none`, caught as ValueError) or a
float; a non-finite float raises ValueError which is caught; both paths
substitute the sentinel 999. -/
def irrGuard : Option PyFloat → PyFloat
  | none => .fin 999
  | some r => if r.isFinite then r else .fin 999

/- ------------------------------------------------------------------ -/
/- Engine.out_break_walk (run_web.py lines 3760-3789).                 -/
/- ------------------------------------------------------------------ -/

/-- The nested climate/building/end-use breakout mapping: an interior node is
a dict of sub-dicts, a terminal level maps year keys to numbers. -/
inductive BrkTree where
  | val : ℚ → BrkTree
  | sub : List (String × BrkTree) → BrkTree

/-- Embedding of `Engine.out_break_walk`: walk all entries, recursing into
sub-dicts; at a terminal value with key `k`, multiply by `adjustVals k` when
`divide` is false, and otherwise divide by `adjustVals k` unless that
denominator is zero, in which case write the fraction 0.  (The source walks
`sorted(adjust_dict.items())`; iteration order does not affect the written
values, so entries are processed in list order here.) -/
def outBreakWalk (adjustVals : String → ℚ) (divide : Bool) :
    List (String × BrkTree) → List (String × BrkTree)
  | [] => []
  | (k, .val q) :: rest =>
    (k, .val (if divide = false then q * adjustVals k
              else if adjustVals k ≠ 0 then q / adjustVals k else 0)) ::
      outBreakWalk adjustVals divide rest
  | (k, .sub e) :: rest =>
    (k, .sub (outBreakWalk adjustVals divide e)) :: outBreakWalk adjustVals divide rest

/-- All terminal values reachable in a breakout structure whose year key has
a zero normalization denominator are exactly 0. -/
def zeroDenomLeavesZero (adjustVals : String → ℚ) :
    List (String × BrkTree) → Prop
  | [] => True
  | (k, .val q) :: rest =>
    (adjustVals k = 0 → q = 0) ∧ zeroDenomLeavesZero adjustVals rest
  | (_, .sub e) :: rest =>
    zeroDenomLeavesZero adjustVals e ∧ zeroDenomLeavesZero adjustVals rest

/- ------------------------------------------------------------------ -/
/- Engine.compete_res_primary (run_web.py lines 1393-1536):           -/
/- residential market-share model for one competed year.              -/
/- ------------------------------------------------------------------ -/

/-- One competing residential measure, for one competed microsegment and one
year: whether the year is in `m.yrs_on_mkt`, its residential unit capital and
operating (energy) costs, and the choice parameters `b1`/`b2` stored for the
competed microsegment key. -/
structure ResM where
  onMkt : Bool
  capCost : ℚ
  opCost : ℚ
  b1 : ℚ
  b2 : ℚ

/-- The weighted sum of capital and operating costs (lines 1473-1482):
`cap_cost * b1 + op_cost * b2`. -/
def sumWt (m : ResM) : ℚ := m.capCost * m.b1 + m.opCost * m.b2

/-- The underflow guard of lines 1486-1489: weighted sums below -500 are
clamped to -500. -/
def sumWtCl (m : ResM) : ℚ := if sumWt m < -500 then -500 else sumWt m

/-- The unnormalized market fraction `numpy.exp(sum_wt)` of line 1492.  The
exponential is the external `numpy.exp`, abstracted as a parameter `expf`;
the clamp guarantees its argument is at least -500, where the float
exponential is strictly positive (that is the purpose of the clamp). -/
def resRawFrac (expf : ℚ → ℚ) (m : ResM) : ℚ := expf (sumWtCl m)

/-- The sum `mkt_fracs_tot` accumulated at line 1495: raw fractions summed
over the measures that are on the market in the year. -/
def resFracsTot (expf : ℚ → ℚ) (ms : List ResM) : ℚ :=
  ((ms.filter (fun m => m.onMkt)).map (resRawFrac expf)).sum

/-- The normalized residential market share of lines 1519-1529: an on-market
measure gets its raw fraction over the on-market total; an off-market measure
gets 0 when some competitor is on the market in the year, and `1 / n` when no
competing measure is on the market in the year. -/
def resShare (expf : ℚ → ℚ) (ms : List ResM) (m : ResM) : ℚ :=
  if m.onMkt then resRawFrac expf m / resFracsTot expf ms
  else if ms.any (fun x => x.onMkt) then 0
  else 1 / (ms.length : ℚ)

/- ------------------------------------------------------------------ -/
/- Engine.metric_update (run_web.py lines 909-1183): cash-flow         -/
/- construction and portfolio-level metrics.                           -/
/- ------------------------------------------------------------------ -/

/-- The inputs of one `metric_update` call (one measure, one year, one
sample): integer lifetimes as passed by `calc_savings_metrics`
(`int(round(...))`), the per-unit costs and savings, and the measure
attributes consulted by the lighting cash-flow credit at lines 974-979. -/
structure MetricIn where
  lifeBase : ℕ
  lifeMeas : ℕ
  scostBase : ℚ
  scostMeasDelt : ℚ
  esave : ℚ
  ecostsave : ℚ
  csave : ℚ
  ccostsave : ℚ
  scostMeas : ℚ
  ecostMeas : ℚ
  ccostMeas : ℚ
  lighting : Bool
  fullService : Bool
  supplyTech : Bool

/-- The avoided baseline-purchase years of lines 973-982: when the measure
outlives the baseline for a full-service supply-side lighting measure, every
multiple of the baseline lifetime inside the measure lifetime contributes the
year index one before it.  (Computed from the unclamped measure lifetime,
as in the source.) -/
def gainYrs (mi : MetricIn) : List ℕ :=
  if mi.lifeBase < mi.lifeMeas ∧ mi.lighting = true ∧ mi.fullService = true ∧
      mi.supplyTech = true then
    ((List.range' 1 (mi.lifeMeas - 1)).filter (fun i => i % mi.lifeBase = 0)).map (fun i => i - 1)
  else []

/-- The measure-lifetime floor of lines 984-987 inside `metric_update`. -/
def lifeMeasCl (mi : MetricIn) : ℕ := if mi.lifeMeas < 1 then 1 else mi.lifeMeas

/-- Incremental capital cash flows (lines 989-1008): the upfront incremental
cost followed, for each year of the measure life, by the avoided baseline
stock cost in gain years and zero otherwise. -/
def cashflowsSDelt (mi : MetricIn) : List ℚ :=
  mi.scostMeasDelt ::
    (List.range (lifeMeasCl mi)).map (fun y => if y ∈ gainYrs mi then mi.scostBase else 0)

/-- Total capital cash flows (lines 989-1008), with the full measure capital
cost upfront. -/
def cashflowsSTot (mi : MetricIn) : List ℚ :=
  mi.scostMeas ::
    (List.range (lifeMeasCl mi)).map (fun y => if y ∈ gainYrs mi then mi.scostBase else 0)

/-- Energy-cost-savings cash flows (lines 1013-1015). -/
def cashflowsEDelt (mi : MetricIn) : List ℚ := 0 :: List.replicate (lifeMeasCl mi) mi.ecostsave

/-- Carbon-cost-savings cash flows (lines 1013-1015). -/
def cashflowsCDelt (mi : MetricIn) : List ℚ := 0 :: List.replicate (lifeMeasCl mi) mi.ccostsave

/-- Energy-savings stream (lines 1030-1031). -/
def esaveArr (mi : MetricIn) : List ℚ := 0 :: List.replicate (lifeMeasCl mi) mi.esave

/-- Carbon-savings stream (lines 1030-1031). -/
def csaveArr (mi : MetricIn) : List ℚ := 0 :: List.replicate (lifeMeasCl mi) mi.csave

/-- Embedding of `numpy.npv(rate, values)`: the sum of `values[i] / (1 + rate) ^ i`, with
the first entry at exponent 0. -/
def npv (rate : ℚ) (cfs : List ℚ) : ℚ :=
  (cfs.enum.map (fun p => p.2 / (1 + rate) ^ p.1)).sum

/-- Value of `HandyVars.discount_rate` (run_web.py line 109). -/
def discountRate : ℚ := 7 / 100

/-- NPV of the incremental capital cash flows (lines 1021-1024). -/
def npvSDelt (mi : MetricIn) : ℚ := npv discountRate (cashflowsSDelt mi)

/-- NPV of the energy-cost-savings cash flows (lines 1021-1024). -/
def npvEDelt (mi : MetricIn) : ℚ := npv discountRate (cashflowsEDelt mi)

/-- NPV of the carbon-cost-savings cash flows (lines 1021-1024). -/
def npvCDelt (mi : MetricIn) : ℚ := npv discountRate (cashflowsCDelt mi)

/-- NPV of the energy savings stream (line 1035). -/
def npvEsave (mi : MetricIn) : ℚ := npv discountRate (esaveArr mi)

/-- NPV of the carbon savings stream (line 1036). -/
def npvCsave (mi : MetricIn) : ℚ := npv discountRate (csaveArr mi)

/-- Cost of conserved energy (lines 1042-1046). -/
def cce (mi : MetricIn) : ℚ :=
  if 0 < npvEsave mi then -npvSDelt mi / npvEsave mi else 999

/-- Cost of conserved energy with carbon cost benefits (lines 1042-1046). -/
def cceBens (mi : MetricIn) : ℚ :=
  if 0 < npvEsave mi then -(npvSDelt mi + npvCDelt mi) / npvEsave mi else 999

/-- Cost of conserved carbon (lines 1050-1054). -/
def ccc (mi : MetricIn) : ℚ :=
  if 0 < npvCsave mi then -npvSDelt mi / (npvCsave mi * 1000000) else 999

/-- Cost of conserved carbon with energy cost benefits (lines 1050-1054). -/
def cccBens (mi : MetricIn) : ℚ :=
  if 0 < npvCsave mi then -(npvSDelt mi + npvEDelt mi) / (npvCsave mi * 1000000) else 999

/- ------------------------------------------------------------------ -/
/- Engine.compete_measures key ordering (run_web.py lines 1256-1353): -/
/- the unique contributing keys are processed in Python-sorted order. -/
/- ------------------------------------------------------------------ -/

/-- Python string comparison `a < b`: lexicographic on code points, a proper
initial segment is smaller. -/
def strLtB : List Char → List Char → Bool
  | [], [] => false
  | [], _ :: _ => true
  | _ :: _, [] => false
  | a :: as, b :: bs => if a < b then true else if b < a then false else strLtB as bs

/-- The opening of the string form of a primary contributing-microsegment
key: `str(tuple)` of a tuple whose first element is the string `primary`
(39 is the code point of the single quote). -/
def pHead : List Char := ['(', Char.ofNat 39, 'p', 'r', 'i', 'm', 'a', 'r', 'y']

/-- The opening of the string form of a secondary contributing-microsegment
key. -/
def sHead : List Char := ['(', Char.ofNat 39, 's', 'e', 'c', 'o', 'n', 'd', 'a', 'r', 'y']

/-- A primary contributing-microsegment key string. -/
def isPrimaryKey (a : List Char) : Prop := ∃ rest, a = pHead ++ rest

/-- A secondary contributing-microsegment key string. -/
def isSecondaryKey (a : List Char) : Prop := ∃ rest, a = sHead ++ rest

/-- The processing order of `compete_measures` line 1270: ascending Python
string order, i.e. no later key is strictly below an earlier one. -/
def sortedKeys (l : List (List Char)) : Prop :=
  l.Pairwise (fun a b => strLtB b a = false)

/- ------------------------------------------------------------------ -/
/- Engine.find_added_sbmkt_fracs (run_web.py lines 2217-2367), for     -/
/- one year, scalar (point-value) path.                                -/
/- ------------------------------------------------------------------ -/

/-- Embedding of `distrib_inds` (lines 2287-2289): 1 for competing measures that apply to
the full segment (`noapply` fraction 0), else 0. -/
def distribInd {n : ℕ} (noapply : Fin n → ℚ) (mc : Fin n) : ℕ :=
  if noapply mc = 0 then 1 else 0

/-- The redistribution weights of lines 2291-2357 for one year: when every
eligible (full-segment) competitor has a zero market share, split evenly
across the eligible competitors (or drop everything when there are none);
otherwise weight eligible competitors by their market shares, normalized
when the weights do not sum to zero. -/
def sbmktWeights {n : ℕ} (noapply mktFracs : Fin n → ℚ) (mc : Fin n) : ℚ :=
  if ∀ x, distribInd noapply x = 1 → mktFracs x = 0 then
    if (∑ x, distribInd noapply x) = 0 then 0
    else if distribInd noapply mc = 1 then 1 / ((∑ x, distribInd noapply x : ℕ) : ℚ) else 0
  else
    if (∑ x, if distribInd noapply x = 1 then mktFracs x else 0) ≠ 0 then
      (if distribInd noapply mc = 1 then mktFracs mc else 0) /
        (∑ x, if distribInd noapply x = 1 then mktFracs x else 0)
    else 0

/-- Embedding of `Engine.find_added_sbmkt_fracs` for one year: `scaling` is
each measure's sub-market scaling fraction, `mktFracs` its pre-redistribution
market share.  Each measure's unused segment `(1 - scaling) * share` is
spread over the other measures by the weights above; if all measures apply
to the full segment all additions are zero (lines 2241-2256, 2277-2365). -/
def addedSbmktFracs {n : ℕ} (scaling mktFracs : Fin n → ℚ) (mn : Fin n) : ℚ :=
  if ∀ m, (1 : ℚ) - scaling m = 0 then 0
  else ∑ m, ((1 - scaling m) * mktFracs m) *
    sbmktWeights (fun m => 1 - scaling m) mktFracs mn

/- ------------------------------------------------------------------ -/
/- Engine.compete_com_primary (run_web.py lines 1755-1992):           -/
/- commercial market-share model for one competed year, point values.  -/
/- ------------------------------------------------------------------ -/

/-- The set of competing measures whose `tot_cost` has an entry for the year,
i.e. those on the market in the year. -/
def onSet {n : ℕ} (onMkt : Fin n → Bool) : Finset (Fin n) :=
  Finset.univ.filter (fun x => onMkt x = true)

/-- The lowest total annualized capital-plus-operating cost among on-market
measures for one discount-rate bin (lines 1961-1967). -/
def comMinVal {n nb : ℕ} (onMkt : Fin n → Bool) (totCost : Fin n → Fin nb → ℚ)
    (ind2 : Fin nb) : ℚ :=
  (((onSet onMkt).image (fun x => totCost x ind2)).min).untop' 0

/-- The on-market measures achieving the lowest annualized cost in the bin
(`min_val_ecms`, lines 1971-1975). -/
def comTied {n nb : ℕ} (onMkt : Fin n → Bool) (totCost : Fin n → Fin nb → ℚ)
    (ind2 : Fin nb) : Finset (Fin n) :=
  (onSet onMkt).filter (fun x => totCost x ind2 = comMinVal onMkt totCost ind2)

/-- The bin allocation of lines 1982-1987: the measure's own discount-rate
population fraction divided by the number of tied lowest-cost measures when
the measure achieves the bin minimum, else 0. -/
def comBinFrac {n nb : ℕ} (onMkt : Fin n → Bool) (totCost : Fin n → Fin nb → ℚ)
    (mktDists : Fin n → Fin nb → ℚ) (ind : Fin n) (ind2 : Fin nb) : ℚ :=
  if totCost ind ind2 = comMinVal onMkt totCost ind2 then
    mktDists ind ind2 / ((comTied onMkt totCost ind2).card : ℚ)
  else 0

/-- The commercial market share for one year (lines 1956-1992): for an
on-market measure the sum of its bin allocations; an off-market measure gets
0 when some competitor is on the market and `1 / n` when none is. -/
def comMktFrac {n nb : ℕ} (onMkt : Fin n → Bool) (totCost : Fin n → Fin nb → ℚ)
    (mktDists : Fin n → Fin nb → ℚ) (ind : Fin n) : ℚ :=
  if onMkt ind = true then ∑ ind2, comBinFrac onMkt totCost mktDists ind ind2
  else if ∃ x, onMkt x = true then 0
  else 1 / (n : ℚ)

/-- Being a lowest-cost measure for a bin, stated directly: on the market and
cost at most every on-market competitor's cost. -/
def comLowest {n nb : ℕ} (onMkt : Fin n → Bool) (totCost : Fin n → Fin nb → ℚ)
    (ind : Fin n) (ind2 : Fin nb) : Prop :=
  onMkt ind = true ∧ ∀ x, onMkt x = true → totCost ind ind2 ≤ totCost x ind2

instance {n nb : ℕ} (onMkt : Fin n → Bool) (totCost : Fin n → Fin nb → ℚ)
    (ind : Fin n) (ind2 : Fin nb) : Decidable (comLowest onMkt totCost ind ind2) :=
  decidable_of_iff
    (onMkt ind = true ∧ ∀ x, onMkt x = true → totCost ind ind2 ≤ totCost x ind2) Iff.rfl

/- ================================================================== -/
/- Theorems                                                           -/
/- ================================================================== -/

/-- Claim C1: for every resource, status and case handled by `compete_adj`,
the dual write sets `mast_new = mast_old - adj_old * (1 - share)` and
`adj_new = adj_old * share` with the same share on both sides, so the amount
removed from the measure's master aggregate equals exactly the amount removed
from the retained contributing-microsegment record, and likewise for the
measure-captured stock entries: competition apportions value without creating
or destroying it. -/
theorem compete_adj_conserves (st : CompeteState) (ft fc : ℚ) :
    (∀ r s c,
      (competeAdj st ft fc).mast r s c
          = st.mast r s c - st.adj r s c * (1 - statusFrac ft fc s) ∧
      (competeAdj st ft fc).adj r s c = st.adj r s c * statusFrac ft fc s ∧
      st.mast r s c - (competeAdj st ft fc).mast r s c
          = st.adj r s c - (competeAdj st ft fc).adj r s c) ∧
    (∀ s,
      st.mastStockMeasure s - (competeAdj st ft fc).mastStockMeasure s
        = st.adjStockMeasure s - (competeAdj st ft fc).adjStockMeasure s) := by
  refine ⟨fun r s c => ⟨rfl, rfl, ?_⟩, fun s => ?_⟩ <;>
    simp only [competeAdj] <;> ring

/-- Claim C3: `metric_update` returns the sentinel 999 for the cost of
conserved energy and its carbon-benefit variant whenever the discounted
energy-savings NPV is not positive; otherwise CCE is exactly the negated
capital-cash-flow NPV over the energy-savings NPV, and the benefit-credited
variant additionally subtracts the carbon-cost NPV in the numerator. -/
theorem cce_spec (mi : MetricIn) :
    (¬ 0 < npv discountRate (esaveArr mi) → cce mi = 999 ∧ cceBens mi = 999) ∧
    (0 < npv discountRate (esaveArr mi) →
      cce mi = -npv discountRate (cashflowsSDelt mi) / npv discountRate (esaveArr mi) ∧
      cceBens mi = -(npv discountRate (cashflowsSDelt mi) +
          npv discountRate (cashflowsCDelt mi)) / npv discountRate (esaveArr mi)) := by
  constructor
  · intro h
    rw [cce, cceBens, npvEsave, if_neg h, if_neg h]
    exact ⟨rfl, rfl⟩
  · intro h
    rw [cce, cceBens, npvEsave, if_pos h, if_pos h]
    exact ⟨rfl, rfl⟩

/-- Witness for C3 at a concrete input: one year of unit energy savings with
incremental capital cost 1, where the energy-savings NPV is positive. -/
theorem cce_spec_witness :
    cce ⟨1, 1, 0, 1, 1, 0, 0, 0, 0, 0, 0, false, false, false⟩ =
      -npv discountRate (cashflowsSDelt ⟨1, 1, 0, 1, 1, 0, 0, 0, 0, 0, 0, false, false, false⟩) /
        npv discountRate (esaveArr ⟨1, 1, 0, 1, 1, 0, 0, 0, 0, 0, 0, false, false, false⟩) :=
  ((cce_spec ⟨1, 1, 0, 1, 1, 0, 0, 0, 0, 0, 0, false, false, false⟩).2 (by
    show 0 < ([((0 : ℕ), (0 : ℚ)), (1, 1)].map
      (fun p => p.2 / (1 + discountRate) ^ p.1)).sum
    norm_num [discountRate])).1

/-- Claim C8 fails on the code: the array branch of the lifetime floor in
`calc_savings_metrics` guards on `any(life) < 1`, which is the boolean
`any(life)` compared with 1; for an array holding any nonzero lifetime (such
as `[0.5, 2.0]`) the guard is False and the sub-one element 0.5 is NOT
clamped, while for an all-zero array the guard is True and the clamp line
itself raises TypeError.  Only the scalar branch floors values below 1. -/
theorem life_clamp_array_bug_eval :
    lifeClampArray [1 / 2, 2] = some [1 / 2, 2] ∧
    (1 / 2 : ℚ) < 1 ∧
    lifeClampArray [0, 0] = none ∧
    lifeClampScalar (1 / 2) = 1 := by
  have h1 : pyTruthyAny [1 / 2, 2] = true := by
    simp only [pyTruthyAny, List.any_cons, List.any_nil, Bool.or_eq_true,
      decide_eq_true_eq]
    left
    norm_num
  have h2 : pyTruthyAny [0, 0] = false := by
    simp [pyTruthyAny]
  refine ⟨?_, by norm_num, ?_, ?_⟩
  · rw [lifeClampArray, h1]
    norm_num
  · rw [lifeClampArray, h2]
    norm_num
  · rw [lifeClampScalar, if_pos (by norm_num)]

/-- Claim C9: if any of the seven per-tier commercial NPVs of the stock,
energy or carbon cash flows is non-finite, all seven tiers of all three
commercial unit-cost outputs are replaced by the sentinel 999; a non-finite
or non-computable IRR is likewise replaced by 999; and every value these
guarded paths return is finite, so NaN/Inf is never passed downstream. -/
theorem nonfinite_sentinel_spec (v : ComNPVs) :
    ((∃ ind : Fin 7, (v.s ind).isFinite = false ∨ (v.e ind).isFinite = false ∨
        (v.c ind).isFinite = false) → comUnitCostGuard v = .sentinel) ∧
    (comUnitCostGuard v).allFinite ∧
    (∀ r : PyFloat, r.isFinite = false → irrGuard (some r) = .fin 999) ∧
    irrGuard none = .fin 999 ∧
    (∀ o : Option PyFloat, (irrGuard o).isFinite = true) := by
  refine ⟨?_, ?_, ?_, rfl, ?_⟩
  · rintro ⟨ind, hind⟩
    rw [comUnitCostGuard, if_neg]
    intro hall
    rcases hall ind with ⟨h1, h2, h3⟩
    rcases hind with h | h | h <;> simp [h] at h1 h2 h3
  · rw [comUnitCostGuard]
    split
    · next hall => exact hall
    · trivial
  · intro r hr
    simp [irrGuard, hr]
  · intro o
    match o with
    | none => rfl
    | some r =>
      show (if r.isFinite = true then r else .fin 999).isFinite = true
      by_cases h : r.isFinite = true
      · rw [if_pos h]; exact h
      · rw [if_neg h]; rfl

/-- Witness for C9: with a NaN stock NPV in the first tier, the commercial
unit costs collapse to the sentinel. -/
theorem nonfinite_sentinel_spec_witness :
    comUnitCostGuard ⟨fun _ => .nan, fun _ => .fin 0, fun _ => .fin 0⟩ = .sentinel :=
  (nonfinite_sentinel_spec ⟨fun _ => .nan, fun _ => .fin 0, fun _ => .fin 0⟩).1
    ⟨0, Or.inl rfl⟩

/-- The cumulative list has one entry per cash flow. -/
theorem cumulativeSums_length (acc : ℚ) (l : List ℚ) :
    (cumulativeSums acc l).length = l.length := by
  induction l generalizing acc with
  | nil => rfl
  | cons c rest ih => simp [cumulativeSums, ih]

/-- Claim C4: `payback([-100, 50, 50, 50])` is exactly 2; any cash-flow
sequence whose initial entry is non-negative pays back immediately (0); a
negative investment whose extended cumulative flows never reach the
investment magnitude within the 100-year cap returns the sentinel 999; and
in recovering cases the result linearly interpolates within the crossing
year found by the cumulative walk. -/
theorem payback_spec :
    payback [-100, 50, 50, 50] = some 2 ∧
    (∀ (inv : ℚ) (rest : List ℚ), 0 ≤ inv → payback (inv :: rest) = some 0) ∧
    (∀ (inv : ℚ) (rest : List ℚ), inv < 0 →
      (∀ t ∈ cumulativeSums 0 (extendCfs rest inv), t < |inv|) →
      payback (inv :: rest) = some 999) ∧
    (∀ (inv : ℚ) (rest : List ℚ) (y : ℕ), inv < 0 →
      y = (cumulativeSums 0 (extendCfs rest inv)).countP (fun t => decide (t < |inv|)) →
      0 < y → y < (extendCfs rest inv).length →
      payback (inv :: rest) = some ((y : ℚ) +
        (|inv| - (cumulativeSums 0 (extendCfs rest inv)).getD (y - 1) 0) /
        ((cumulativeSums 0 (extendCfs rest inv)).getD y 0 -
         (cumulativeSums 0 (extendCfs rest inv)).getD (y - 1) 0))) := by
  refine ⟨?_, ?_, ?_, ?_⟩
  · norm_num [payback, extendCfs, List.replicate_succ, cumulativeSums,
      List.countP_cons, List.countP_nil]
  · intro inv rest h
    simp [payback, h]
  · intro inv rest hneg hall
    have hn : ¬ 0 ≤ inv := not_le.mpr hneg
    have hcount : (cumulativeSums 0 (extendCfs rest inv)).countP
        (fun t => decide (t < |inv|)) = (cumulativeSums 0 (extendCfs rest inv)).length :=
      List.countP_eq_length.mpr (fun a ha => decide_eq_true (hall a ha))
    have hlen : ¬ ((cumulativeSums 0 (extendCfs rest inv)).countP
        (fun t => decide (t < |inv|)) < (extendCfs rest inv).length) := by
      rw [hcount, cumulativeSums_length]
      exact lt_irrefl _
    simp [payback, hn, hlen]
  · intro inv rest y hneg hy h0 hlen
    have hn : ¬ 0 ≤ inv := not_le.mpr hneg
    have hy0 : ¬ (y = 0) := Nat.pos_iff_ne_zero.mp h0
    subst hy
    simp [payback, hn, hlen, hy0]

/-- Witness for C4 (the hypothesis-bearing conjuncts at concrete inputs):
a non-negative initial flow, and a flow stream that never recovers. -/
theorem payback_spec_witness :
    payback [(100 : ℚ), -3] = some 0 ∧ payback [(-100 : ℚ), 0] = some 999 := by
  constructor
  · exact payback_spec.2.1 100 [-3] (by norm_num)
  · refine payback_spec.2.2.1 (-100) [0] (by norm_num) ?_
    have hz : ∀ (n : ℕ) (acc : ℚ), cumulativeSums acc (List.replicate n (0 : ℚ)) =
        List.replicate n acc := by
      intro n
      induction n with
      | zero => intro acc; rfl
      | succ m ih => intro acc; simp [List.replicate_succ, cumulativeSums, ih]
    have hext : extendCfs [0] (-100) = List.replicate 100 (0 : ℚ) := by
      rw [extendCfs]
      rw [show List.getLastD [(0 : ℚ)] (-100) = 0 from rfl]
      rw [show ((100 : ℕ) - [(0 : ℚ)].length) = 99 from rfl]
      rw [show (100 : ℕ) = 1 + 99 from rfl, List.replicate_add]
      rfl
    intro t ht
    rw [hext, hz 100 0] at ht
    have ht0 := List.eq_of_mem_replicate ht
    subst ht0
    norm_num

/- C5: sorted-order lemmas for contributing-microsegment keys. -/

/-- Equal leading characters defer to the remainder in Python string
comparison. -/
theorem strLtB_cons_same (c : Char) (as bs : List Char) :
    strLtB (c :: as) (c :: bs) = strLtB as bs := by
  show (if c < c then true else if c < c then false else strLtB as bs) = strLtB as bs
  rw [if_neg (lt_irrefl c), if_neg (lt_irrefl c)]

/-- A smaller leading character decides Python string comparison. -/
theorem strLtB_cons_lt {a b : Char} (h : a < b) (as bs : List Char) :
    strLtB (a :: as) (b :: bs) = true := by
  show (if a < b then true else if b < a then false else strLtB as bs) = true
  rw [if_pos h]

/-- Python string comparison is irreflexive. -/
theorem strLtB_irrefl : ∀ a : List Char, strLtB a a = false
  | [] => rfl
  | c :: as => by rw [strLtB_cons_same]; exact strLtB_irrefl as

/-- Every primary key string sorts strictly below every secondary key
string: they agree on the two leading characters and then compare
`p` against `s`. -/
theorem primary_lt_secondary {a b : List Char} (ha : isPrimaryKey a)
    (hb : isSecondaryKey b) : strLtB a b = true := by
  obtain ⟨ra, rfl⟩ := ha
  obtain ⟨rb, rfl⟩ := hb
  rw [pHead, sHead]
  simp only [List.cons_append]
  rw [strLtB_cons_same, strLtB_cons_same]
  exact strLtB_cons_lt (by decide) _ _

/-- Claim C5: in the Python-sorted list of unique contributing-microsegment
keys walked by `compete_measures`, every `primary` key occurs (and is hence
processed) strictly before any `secondary` key, so by the time a secondary
key is reached, every primary key has already been processed and its
adjusted-to-original captured-energy ratios recorded. -/
theorem primary_before_secondary (l : List (List Char)) (hs : sortedKeys l)
    (i j : ℕ) (hi : i < l.length) (hj : j < l.length)
    (hsec : isSecondaryKey (l.get ⟨i, hi⟩)) (hpri : isPrimaryKey (l.get ⟨j, hj⟩)) :
    j < i := by
  by_contra hcon
  push_neg at hcon
  rcases eq_or_lt_of_le hcon with heq | hlt
  · subst heq
    have h1 := primary_lt_secondary hpri hsec
    rw [strLtB_irrefl] at h1
    exact Bool.noConfusion h1
  · have hp := (List.pairwise_iff_get.mp hs) ⟨i, hi⟩ ⟨j, hj⟩ hlt
    have h1 := primary_lt_secondary hpri hsec
    rw [h1] at hp
    exact Bool.noConfusion hp

/-- Witness for C5: a two-key sorted list with one primary and one secondary
key; the primary key's position precedes the secondary key's. -/
theorem primary_before_secondary_witness : (0 : ℕ) < 1 :=
  primary_before_secondary [pHead, sHead] (by rw [sortedKeys]; decide)
    1 0 (by norm_num) (by norm_num)
    ⟨[], (List.append_nil _).symm⟩ ⟨[], (List.append_nil _).symm⟩

/- C10: the division walk never divides by zero. -/

/-- Every zero-denominator leaf written by the division walk holds 0. -/
theorem outBreakWalk_zeroDenom (f : String → ℚ) :
    ∀ entries, zeroDenomLeavesZero f (outBreakWalk f true entries)
  | [] => by
    rw [outBreakWalk, zeroDenomLeavesZero]
    trivial
  | (k, .val q) :: rest => by
    rw [outBreakWalk, zeroDenomLeavesZero]
    refine ⟨?_, outBreakWalk_zeroDenom f rest⟩
    intro h
    simp [h]
  | (k, .sub e) :: rest => by
    rw [outBreakWalk, zeroDenomLeavesZero]
    exact ⟨outBreakWalk_zeroDenom f e, outBreakWalk_zeroDenom f rest⟩

/-- Claim C10 (implicit): `out_break_walk` with `divide=True` is total: a
leaf whose normalization denominator for its year is zero is written as the
fraction 0 rather than evaluating a division by zero, and every
zero-denominator leaf of the output is exactly 0. -/
theorem out_break_walk_div_total (f : String → ℚ) :
    (∀ entries, zeroDenomLeavesZero f (outBreakWalk f true entries)) ∧
    (∀ (k : String) (q : ℚ) (rest : List (String × BrkTree)), f k = 0 →
      outBreakWalk f true ((k, .val q) :: rest)
        = (k, .val 0) :: outBreakWalk f true rest) := by
  refine ⟨outBreakWalk_zeroDenom f, ?_⟩
  intro k q rest h
  simp [outBreakWalk, h]

/-- Witness for C10: a one-leaf breakout normalized by an all-zero total is
written as the fraction 0. -/
theorem out_break_walk_div_total_witness :
    outBreakWalk (fun _ => 0) true [("2025", .val 5)] = [("2025", .val 0)] := by
  rw [(out_break_walk_div_total (fun _ => 0)).2 "2025" 5 [] rfl, outBreakWalk]

/- C2: residential market-share normalization. -/

/-- The clamped weighted cost is never below -500. -/
theorem sumWtCl_ge (m : ResM) : -500 ≤ sumWtCl m := by
  rw [sumWtCl]
  split
  · exact le_refl _
  · next h => exact le_of_not_lt h

/-- Summing the on-market raw fractions divided by a fixed total over a list
equals the list's raw-fraction total divided by that total. -/
theorem resShare_sum_aux (expf : ℚ → ℚ) (T : ℚ) :
    ∀ l : List ResM,
      (l.map (fun m => if m.onMkt = true then resRawFrac expf m / T else 0)).sum
        = resFracsTot expf l / T
  | [] => by simp [resFracsTot]
  | m :: l => by
    rw [List.map_cons, List.sum_cons, resShare_sum_aux expf T l]
    by_cases h : m.onMkt = true
    · have htot : resFracsTot expf (m :: l)
          = resRawFrac expf m + resFracsTot expf l := by
        rw [resFracsTot, resFracsTot, List.filter_cons, if_pos h, List.map_cons,
          List.sum_cons]
      rw [htot, if_pos h, div_add_div_same]
    · have htot : resFracsTot expf (m :: l) = resFracsTot expf l := by
        rw [resFracsTot, resFracsTot, List.filter_cons, if_neg h]
      rw [htot, if_neg h, zero_add]

/-- Claim C2: for a competed residential primary microsegment and year, the
market fractions across competing measures sum to 1 whenever at least one
measure is on the market: each on-market measure gets the exponential of its
clamped weighted cost divided by the on-market total, each off-market measure
gets 0; and in years where no competing measure is on the market every one of
the n measures gets 1/n.  The hypothesis on `expf` records that the float
exponential is strictly positive at arguments of -500 and above, which the
clamp guarantees. -/
theorem res_share_normalization (expf : ℚ → ℚ)
    (hpos : ∀ x : ℚ, -500 ≤ x → 0 < expf x) (ms : List ResM) :
    (ms.any (fun x => x.onMkt) = true →
      (ms.map (resShare expf ms)).sum = 1 ∧
      (∀ m : ResM, m.onMkt = true →
        resShare expf ms m = expf (sumWtCl m) / resFracsTot expf ms) ∧
      (∀ m : ResM, m.onMkt = false → resShare expf ms m = 0)) ∧
    (ms.any (fun x => x.onMkt) = false →
      ∀ m ∈ ms, resShare expf ms m = 1 / (ms.length : ℚ)) := by
  constructor
  · intro hon
    have hT : 0 < resFracsTot expf ms := by
      apply List.sum_pos
      · intro x hx
        rw [List.mem_map] at hx
        obtain ⟨m, _, rfl⟩ := hx
        exact hpos _ (sumWtCl_ge m)
      · obtain ⟨m, hm, hmon⟩ := List.any_eq_true.mp hon
        exact List.ne_nil_of_mem
          (List.mem_map_of_mem (resRawFrac expf) (List.mem_filter.mpr ⟨hm, hmon⟩))
    have hfun : resShare expf ms
        = fun m => if m.onMkt = true then resRawFrac expf m / resFracsTot expf ms
          else 0 := by
      funext m
      rw [resShare]
      by_cases h : m.onMkt = true
      · rw [if_pos h, if_pos h]
      · rw [if_neg h, if_neg h, if_pos hon]
    refine ⟨?_, ?_, ?_⟩
    · rw [hfun, resShare_sum_aux, div_self (ne_of_gt hT)]
    · intro m hm
      rw [hfun]
      simp only [if_pos hm]
      rfl
    · intro m hm
      rw [hfun]
      simp [hm]
  · intro hoff m hm
    have h1 : m.onMkt = false := by
      have := List.any_eq_false.mp hoff m hm
      revert this
      cases m.onMkt <;> simp
    rw [resShare]
    simp [h1, hoff]

/-- Witness for C2: a single on-market measure captures the whole market. -/
theorem res_share_normalization_witness :
    (([⟨true, 0, 0, 0, 0⟩] : List ResM).map
      (resShare (fun _ => 1) [⟨true, 0, 0, 0, 0⟩])).sum = 1 :=
  ((res_share_normalization (fun _ => 1) (fun _ _ => one_pos)
    [⟨true, 0, 0, 0, 0⟩]).1 rfl).1

/- C6: sub-market redistribution. -/

/-- A measure that does not apply to the full segment has eligibility
indicator 0. -/
theorem distribInd_eq_zero {n : ℕ} (scaling : Fin n → ℚ) (m : Fin n)
    (h : scaling m ≠ 1) : distribInd (fun x => 1 - scaling x) m = 0 := by
  rw [distribInd, if_neg]
  intro hc
  exact h (sub_eq_zero.mp hc).symm

/-- A full-segment measure has eligibility indicator 1. -/
theorem distribInd_eq_one {n : ℕ} (scaling : Fin n → ℚ) (m : Fin n)
    (h : scaling m = 1) : distribInd (fun x => 1 - scaling x) m = 1 := by
  rw [distribInd, if_pos]
  rw [h]
  ring

/-- The eligibility-indicator sum counts the full-segment competitors. -/
theorem distribInd_sum_eq_card {n : ℕ} (scaling : Fin n → ℚ) :
    (∑ x, distribInd (fun m => 1 - scaling m) x)
      = (Finset.univ.filter (fun x => scaling x = 1)).card := by
  rw [Finset.card_filter]
  refine Finset.sum_congr rfl (fun x _ => ?_)
  by_cases h : scaling x = 1
  · rw [distribInd_eq_one scaling x h, if_pos h]
  · rw [distribInd_eq_zero scaling x h, if_neg h]

/-- Claim C6: in `find_added_sbmkt_fracs` the unused fraction
`(1 - sub-market scaling) * market share` of each measure is redistributed
only to competitors with scaling exactly 1: (a) a measure not applying to the
full segment receives 0; (b) with no full-segment competitor everything is
dropped (a sole 60%-scaled competitor gains nothing and keeps its 60%-scaled
segment); (c) when every full-segment competitor has zero share, the pooled
unused fraction is split evenly among them; (d) otherwise it is split in
proportion to their pre-redistribution market shares. -/
theorem sbmkt_redistribution_spec {n : ℕ} (scaling mktFracs : Fin n → ℚ) :
    (∀ mn, scaling mn ≠ 1 → addedSbmktFracs scaling mktFracs mn = 0) ∧
    ((∀ mc, scaling mc ≠ 1) → ∀ mn, addedSbmktFracs scaling mktFracs mn = 0) ∧
    ((∃ m, scaling m ≠ 1) → (∀ x, scaling x = 1 → mktFracs x = 0) →
      ∀ mn, scaling mn = 1 →
      addedSbmktFracs scaling mktFracs mn
        = (∑ m, (1 - scaling m) * mktFracs m) *
            (1 / ((Finset.univ.filter (fun x => scaling x = 1)).card : ℚ))) ∧
    ((∃ m, scaling m ≠ 1) → (∃ x, scaling x = 1 ∧ mktFracs x ≠ 0) →
      (∑ x ∈ Finset.univ.filter (fun x => scaling x = 1), mktFracs x) ≠ 0 →
      ∀ mn, scaling mn = 1 →
      addedSbmktFracs scaling mktFracs mn
        = (∑ m, (1 - scaling m) * mktFracs m) *
            (mktFracs mn /
              ∑ x ∈ Finset.univ.filter (fun x => scaling x = 1), mktFracs x)) := by
  have ha : ∀ mn, scaling mn ≠ 1 → addedSbmktFracs scaling mktFracs mn = 0 := by
    intro mn hmn
    have hd0 : distribInd (fun m => 1 - scaling m) mn = 0 := distribInd_eq_zero _ _ hmn
    have hw : sbmktWeights (fun m => 1 - scaling m) mktFracs mn = 0 := by
      have hne : ¬ distribInd (fun m => 1 - scaling m) mn = 1 := by
        rw [hd0]
        norm_num
      rw [sbmktWeights]
      split_ifs with h1 h2 h3 <;>
        first
          | rfl
          | exact absurd ‹distribInd (fun m => 1 - scaling m) mn = 1› hne
          | exact zero_div _
    rw [addedSbmktFracs]
    split_ifs with h
    · rfl
    · simp [hw]
  refine ⟨ha, fun hall mn => ha mn (hall mn), ?_, ?_⟩
  · intro hex hzero mn hmn
    have hnotall : ¬ ∀ m, (1 : ℚ) - scaling m = 0 := by
      obtain ⟨m, hm⟩ := hex
      intro h
      exact hm (sub_eq_zero.mp (h m)).symm
    have hzs : ∀ x, distribInd (fun m => 1 - scaling m) x = 1 → mktFracs x = 0 := by
      intro x hx
      by_cases h : scaling x = 1
      · exact hzero x h
      · exact absurd ((distribInd_eq_zero scaling x h) ▸ hx) (by norm_num)
    have hcardpos : (∑ x, distribInd (fun m => 1 - scaling m) x) ≠ 0 := by
      rw [distribInd_sum_eq_card]
      exact Finset.card_ne_zero_of_mem (Finset.mem_filter.mpr ⟨Finset.mem_univ _, hmn⟩)
    have hw : sbmktWeights (fun m => 1 - scaling m) mktFracs mn
        = 1 / (((Finset.univ.filter (fun x => scaling x = 1)).card : ℕ) : ℚ) := by
      rw [sbmktWeights, if_pos hzs, if_neg hcardpos,
        if_pos (distribInd_eq_one scaling mn hmn), distribInd_sum_eq_card]
    rw [addedSbmktFracs, if_neg hnotall, hw, ← Finset.sum_mul]
  · intro hex hnz hsum mn hmn
    have hnotall : ¬ ∀ m, (1 : ℚ) - scaling m = 0 := by
      obtain ⟨m, hm⟩ := hex
      intro h
      exact hm (sub_eq_zero.mp (h m)).symm
    have hzs : ¬ ∀ x, distribInd (fun m => 1 - scaling m) x = 1 → mktFracs x = 0 := by
      obtain ⟨x, hx1, hx2⟩ := hnz
      intro h
      exact hx2 (h x (distribInd_eq_one scaling x hx1))
    have hsum2 : (∑ x, if distribInd (fun m => 1 - scaling m) x = 1
        then mktFracs x else 0)
        = ∑ x ∈ Finset.univ.filter (fun x => scaling x = 1), mktFracs x := by
      rw [Finset.sum_filter]
      refine Finset.sum_congr rfl (fun x _ => ?_)
      by_cases h : scaling x = 1
      · rw [if_pos (distribInd_eq_one scaling x h), if_pos h]
      · rw [if_neg (by simp [distribInd_eq_zero scaling x h]), if_neg h]
    have hw : sbmktWeights (fun m => 1 - scaling m) mktFracs mn
        = mktFracs mn /
            ∑ x ∈ Finset.univ.filter (fun x => scaling x = 1), mktFracs x := by
      rw [sbmktWeights, if_neg hzs, if_pos (by rw [hsum2]; exact hsum),
        if_pos (distribInd_eq_one scaling mn hmn), hsum2]
    rw [addedSbmktFracs, if_neg hnotall, hw, ← Finset.sum_mul]

/-- Witness for C6: a sole competitor with sub-market scaling 0.6 receives no
added market share, so its effective captured share stays at its scaled 60%
segment rather than the full segment. -/
theorem sbmkt_redistribution_spec_witness :
    addedSbmktFracs (fun _ : Fin 1 => (3 : ℚ) / 5) (fun _ => 1) 0 = 0 :=
  (sbmkt_redistribution_spec (fun _ : Fin 1 => (3 : ℚ) / 5) (fun _ => 1)).2.1
    (fun _ => by norm_num) 0

/- C7: commercial market-share model. -/

/-- With at least one on-market measure, `comMinVal` is the minimum of the
on-market costs for the bin. -/
theorem comMinVal_eq_min' {n nb : ℕ} (onMkt : Fin n → Bool)
    (totCost : Fin n → Fin nb → ℚ) (ind2 : Fin nb) (hne : (onSet onMkt).Nonempty) :
    comMinVal onMkt totCost ind2
      = ((onSet onMkt).image (fun x => totCost x ind2)).min'
          (hne.image (fun x => totCost x ind2)) := by
  rw [comMinVal, ← Finset.coe_min' (hne.image (fun x => totCost x ind2))]
  exact WithTop.untop'_coe 0 _

/-- For an on-market measure, achieving the bin minimum is the same as having
cost at most every on-market competitor's cost. -/
theorem comLowest_iff_eq_min {n nb : ℕ} (onMkt : Fin n → Bool)
    (totCost : Fin n → Fin nb → ℚ) (ind2 : Fin nb) {x : Fin n}
    (hx : onMkt x = true) :
    totCost x ind2 = comMinVal onMkt totCost ind2 ↔ comLowest onMkt totCost x ind2 := by
  have hxe : x ∈ onSet onMkt := Finset.mem_filter.mpr ⟨Finset.mem_univ _, hx⟩
  have hne : (onSet onMkt).Nonempty := ⟨x, hxe⟩
  rw [comMinVal_eq_min' onMkt totCost ind2 hne]
  constructor
  · intro h
    refine ⟨hx, fun y hy => ?_⟩
    have hyt : totCost y ind2 ∈ (onSet onMkt).image (fun z => totCost z ind2) :=
      Finset.mem_image_of_mem _ (Finset.mem_filter.mpr ⟨Finset.mem_univ _, hy⟩)
    rw [h]
    exact Finset.min'_le _ _ hyt
  · rintro ⟨-, hall⟩
    apply le_antisymm
    · obtain ⟨y, hy, hyeq⟩ := Finset.mem_image.mp
        (Finset.min'_mem ((onSet onMkt).image (fun z => totCost z ind2))
          (hne.image (fun z => totCost z ind2)))
      rw [← hyeq]
      exact hall y (Finset.mem_filter.mp hy).2
    · exact Finset.min'_le _ _ (Finset.mem_image_of_mem _ hxe)

/-- The tied lowest-cost set of the source is exactly the set of lowest-cost
on-market measures. -/
theorem comTied_eq_winners {n nb : ℕ} (onMkt : Fin n → Bool)
    (totCost : Fin n → Fin nb → ℚ) (ind2 : Fin nb) :
    comTied onMkt totCost ind2
      = Finset.univ.filter (fun x => comLowest onMkt totCost x ind2) := by
  ext x
  rw [comTied, onSet]
  simp only [Finset.mem_filter, Finset.mem_univ, true_and]
  constructor
  · rintro ⟨hx, heq⟩
    exact (comLowest_iff_eq_min onMkt totCost ind2 hx).mp heq
  · intro hlow
    exact ⟨hlow.1, (comLowest_iff_eq_min onMkt totCost ind2 hlow.1).mpr hlow⟩

/-- Claim C7: in the commercial market-share model, for every year on market
and every discount-rate bin, the measures with the lowest total annualized
capital-plus-operating cost split the bin's population fraction evenly among
themselves — each tied lowest-cost measure receives its bin fraction divided
by the number of tied measures, every other measure receives 0 for that bin —
and an on-market measure's market share for the year is the sum of the bin
fractions it wins. -/
theorem com_share_spec {n nb : ℕ} (onMkt : Fin n → Bool)
    (totCost : Fin n → Fin nb → ℚ) (mktDists : Fin n → Fin nb → ℚ)
    (ind : Fin n) (hon : onMkt ind = true) :
    comMktFrac onMkt totCost mktDists ind
        = (∑ ind2, comBinFrac onMkt totCost mktDists ind ind2) ∧
    (∀ ind2, comLowest onMkt totCost ind ind2 →
      comBinFrac onMkt totCost mktDists ind ind2
        = mktDists ind ind2 /
          (((Finset.univ.filter (fun x => comLowest onMkt totCost x ind2)).card : ℕ) : ℚ)) ∧
    (∀ ind2, ¬ comLowest onMkt totCost ind ind2 →
      comBinFrac onMkt totCost mktDists ind ind2 = 0) := by
  refine ⟨by rw [comMktFrac, if_pos hon], ?_, ?_⟩
  · intro ind2 hlow
    rw [comBinFrac, if_pos ((comLowest_iff_eq_min onMkt totCost ind2 hon).mpr hlow),
      comTied_eq_winners onMkt totCost ind2]
  · intro ind2 hnot
    rw [comBinFrac, if_neg]
    intro heq
    exact hnot ((comLowest_iff_eq_min onMkt totCost ind2 hon).mp heq)

/-- Witness for C7: two on-market measures tied at equal cost each take half
of the single bin's fraction (1/2 divided by the 2 tied measures). -/
theorem com_share_spec_witness :
    comBinFrac (fun _ : Fin 2 => true) (fun _ (_ : Fin 1) => (0 : ℚ))
      (fun _ _ => 1 / 2) 0 0
      = (1 : ℚ) / 2 /
          (((Finset.univ.filter (fun x => comLowest (fun _ : Fin 2 => true)
            (fun _ (_ : Fin 1) => (0 : ℚ)) x 0)).card : ℕ) : ℚ) :=
  ((com_share_spec (fun _ : Fin 2 => true) (fun _ (_ : Fin 1) => (0 : ℚ))
    (fun _ _ => 1 / 2) 0 rfl).2.1 0 ⟨rfl, fun _ _ => le_refl 0⟩)

end RunWeb
